import Mathlib

/-!
# Shallow embedding of the `arguments` command-line framework

This file embeds the core of `src/arguments.h` (token matcher
`arguments_read`, comparator `arguments_cmp`, materializer
`arguments_set`, release pass `arguments_release`, and the `main`
pipeline generated in automatic mode) together with the line-wrap
primitive `arguments_get_line` of the help renderer, and proves
properties about them.

Modelling conventions:

* C strings are `List Char` without the NUL terminator; where the C code
  relies on the terminator byte, a well-formedness hypothesis
  `c.toNat ≠ 0` on the characters is carried.
* The macro-generated per-argument code is modelled by a list of
  `Descriptor` values (one per `_A` invocation, in declaration order)
  and a parallel list of `Rec` records (the per-argument structs of the
  global `arguments` variable).
* The `read`, `set_default` and `release` statement blocks of a
  descriptor are modelled as functions: `read` and `set_default` return
  `Option V` (`none` models `is_valid = 0`, i.e. an invalid value or
  `ARGUMENTS_NO_DEFAULT`).  Which block ran is recorded in an explicit
  event trace, and the release pass is modelled by the list of indices
  of the records it releases, so that "the releaser ran (exactly once)"
  is observable.
* `ARGUMENTS_PRINT_HELP` is non-zero (its default), so `arguments_read`
  handles `--help` / `-h`.  Printing itself is irrelevant to the claims
  and is not modelled.
* `arguments_get_line` is modelled for single-byte characters (every
  `mbrlen` call returns 1), which covers the ASCII inputs of the claims;
  the loop counter `fuel` is exactly `strlen(s) - i`, so running out of
  fuel coincides with the loop condition `i < end` failing.
-/

set_option autoImplicit false

namespace Arguments

/-- C strings without their NUL terminator. -/
abbrev Str := List Char

/-- Reading `*p` through a C string pointer: the terminator is byte 0. -/
def headCode : Str → Int
  | [] => 0
  | c :: _ => (c.toNat : Int)

/-- The value of the C expression `(*name == '_')` after the loop of
`arguments_cmp`. -/
def underscoreBit : Str → Int
  | [] => 0
  | c :: _ => if c = '_' then 1 else 0

/-- `'_'` in a long name is matched as `'-'` (see `arguments_cmp`). -/
def cNorm (c : Char) : Char := if c = '_' then '-' else c

/-- The character-by-character loop of `arguments_cmp`: advance both
pointers while both strings are unfinished and the characters agree
(with `'_'` in `name` compared as `'-'`); return the final pointers. -/
def cmp_loop : Str → Str → Str × Str
  | a :: as, n :: ns => if a = cNorm n then cmp_loop as ns else (a :: as, n :: ns)
  | as, ns => (as, ns)

/-- `arguments_cmp` from `src/arguments.h`.  The first two characters of
`longarg` must be `"--"`; afterwards the rest is compared to `name`.
The final `return *longarg - (*name == '_') ? '-' : *name;` parses (by C
precedence) as `(*longarg - (*name == '_')) ? '-' : *name`, which is
modelled verbatim. -/
def arguments_cmp (longarg name : Str) : Int :=
  match longarg with
  | [] => -1
  | c1 :: rest1 =>
    if c1 ≠ '-' then -1
    else
      match rest1 with
      | [] => -1
      | c2 :: rest2 =>
        if c2 ≠ '-' then -1
        else
          let p := cmp_loop rest2 name
          if headCode p.1 - underscoreBit p.2 = 0 then headCode p.2 else (('-').toNat : Int)

/-- The long-form command line token for a declared name: `"--"`
followed by the name with underscores replaced by dashes. -/
def longForm (name : Str) : Str := '-' :: '-' :: name.map cNorm

/-- One `_A` invocation of `arguments.def`, in declaration order.
`is_required` is an expression evaluated after reading, so it may
inspect the presence flags of all arguments; `read` receives the
`value_strings` pointer and `value_strings_length`; `read` and
`set_default` return `none` when they set `is_valid = 0`. -/
structure Descriptor (V : Type) where
  name : Str
  short : Option Str
  value_count : Nat
  is_required : List Bool → Bool
  read : Option (List Str) → Nat → Option V
  set_default : Option V

/-- The per-argument struct of the global `arguments` variable.
`value_strings` is `none` while the C pointer is `NULL`. -/
structure Rec (V : Type) where
  present : Bool
  initialized : Bool
  value_strings : Option (List Str)
  value_strings_length : Nat
  value : Option V
deriving DecidableEq

/-- A freshly zeroed per-argument struct (`arguments_initialize`). -/
def zeroRec {V : Type} : Rec V := ⟨false, false, none, 0, none⟩

/-- The zeroed `arguments` struct for a schema. -/
def initRecs {V : Type} (ds : List (Descriptor V)) : List (Rec V) :=
  List.replicate ds.length (zeroRec)

/-- Record of argument `i`, reading out of range as zeroed (never
happens for in-range indices, which is all the code uses). -/
def getRec {V : Type} (recs : List (Rec V)) (i : Nat) : Rec V :=
  (recs.get? i).getD zeroRec

/-- Apply `f` to the element at position `m` (identity out of range). -/
def modifyIdx {α : Type} (f : α → α) : Nat → List α → List α
  | _, [] => []
  | 0, a :: as => f a :: as
  | n + 1, a :: as => a :: modifyIdx f n as

/-- Return values of `arguments_read` / `arguments_set`. -/
inductive AC where
  | ok
  | error
  | help
deriving DecidableEq

/-- Result of `arguments_read`: the status, the final `*nextarg`, and
the updated per-argument records. -/
structure ReadResult (V : Type) where
  status : AC
  nextarg : Nat
  recs : List (Rec V)
deriving DecidableEq

/-- The token `"--help"`. -/
def helpLong : Str := ['-', '-', 'h', 'e', 'l', 'p']

/-- The token `"-h"`. -/
def helpShort : Str := ['-', 'h']

/-- The condition of the generated `else if` for one descriptor:
the long comparison succeeds, or the short name exists and matches
exactly (`short && strcmp(argv[*nextarg], short) == 0`). -/
def matchesTok {V : Type} (tok : Str) (d : Descriptor V) : Bool :=
  decide (arguments_cmp tok d.name = 0) ||
    (match d.short with
     | some s => decide (tok = s)
     | none => false)

/-- Index of the first descriptor, in declaration order, whose
generated `else if` matches the token (the `else if` chain). -/
def findMatch {V : Type} (tok : Str) : List (Descriptor V) → Option Nat
  | [] => none
  | d :: dl => if matchesTok tok d then some 0 else (findMatch tok dl).map (fun n => n + 1)

/-- `value_count` of descriptor `m` (only used at in-range indices). -/
def arityAt {V : Type} (ds : List (Descriptor V)) (m : Nat) : Nat :=
  ((ds.get? m).map (fun d => d.value_count)).getD 0

/-- The `while (*nextarg < argc && is_valid)` loop of `arguments_read`:
handle `--help` / `-h` first, then try each descriptor in declaration
order; on a match set `present` and `value_strings_length`, and if
enough tokens remain capture them and continue, otherwise stop with
`AC_ERROR` (`is_valid = 0; break`); stop with `AC_OK` on the first
unmatched token or at the end of `argv`. -/
def arguments_read_loop {V : Type} (ds : List (Descriptor V)) (argv : List Str)
    (j : Nat) (recs : List (Rec V)) : ReadResult V :=
  if h : j < argv.length then
    let tok := argv.get ⟨j, h⟩
    if tok = helpLong ∨ tok = helpShort then
      ⟨AC.help, j, recs⟩
    else
      match findMatch tok ds with
      | some m =>
        let k := arityAt ds m
        let recs1 := modifyIdx (fun r => { r with present := true, value_strings_length := k }) m recs
        if j + k < argv.length then
          arguments_read_loop ds argv (j + 1 + k)
            (modifyIdx (fun r => { r with value_strings := some ((argv.drop (j + 1)).take k) }) m recs1)
        else
          ⟨AC.error, j, recs1⟩
      | none => ⟨AC.ok, j, recs⟩
  else ⟨AC.ok, j, recs⟩
termination_by argv.length - j
decreasing_by simp_wf; omega

/-- `arguments_read`: clamp `*nextarg` to at least 1, then run the
matching loop. -/
def arguments_read {V : Type} (ds : List (Descriptor V)) (argv : List Str)
    (nextarg : Nat) (recs : List (Rec V)) : ReadResult V :=
  arguments_read_loop ds argv (if nextarg < 1 then 1 else nextarg) recs

/-- Which statement block of a descriptor ran during `arguments_set`:
its `read` block or its `set_default` block (argument = the
descriptor's position in declaration order). -/
inductive SetEvent where
  | reader (i : Nat)
  | defaulter (i : Nat)
deriving DecidableEq

/-- The declaration-order position an event belongs to. -/
def evIdx : SetEvent → Nat
  | .reader i => i
  | .defaulter i => i

/-- The value produced for one descriptor by `arguments_set`: the
`read` block on the captured strings if the argument is present,
otherwise the `set_default` block; `none` models `is_valid = 0`. -/
def stepVal {V : Type} (d : Descriptor V) (r : Rec V) : Option V :=
  if r.present then d.read r.value_strings r.value_strings_length else d.set_default

/-- The event recorded for one descriptor by `arguments_set`. -/
def stepEvent {V : Type} (r : Rec V) (i : Nat) : SetEvent :=
  if r.present then SetEvent.reader i else SetEvent.defaulter i

/-- One macro expansion of the `arguments_set` body for descriptor `i`:
guarded by `if (is_valid)`; run `read` or `set_default`, record which
ran, and on success (`is_valid` still set) store the value and mark the
record initialized. -/
def setStep {V : Type} (d : Descriptor V) (i : Nat)
    (st : Bool × List (Rec V) × List SetEvent) : Bool × List (Rec V) × List SetEvent :=
  if st.1 then
    match stepVal d (getRec st.2.1 i) with
    | some v =>
      (true,
       modifyIdx (fun r => { r with value := some v, initialized := true }) i st.2.1,
       st.2.2 ++ [stepEvent (getRec st.2.1 i) i])
    | none => (false, st.2.1, st.2.2 ++ [stepEvent (getRec st.2.1 i) i])
  else st

/-- The sequence of macro expansions in `arguments_set`, positions
`i`, `i+1`, ... for the remaining descriptors. -/
def arguments_set_go {V : Type} : List (Descriptor V) → Nat →
    (Bool × List (Rec V) × List SetEvent) → Bool × List (Rec V) × List SetEvent
  | [], _, st => st
  | d :: dl, i, st => arguments_set_go dl (i + 1) (setStep d i st)

/-- `arguments_set`: process every descriptor in declaration order
starting from `is_valid = 1`; the first component is the final
`is_valid` (the function returns `AC_OK` iff it is still set), the
second the updated records, the third the trace of which blocks ran.
`arguments_set` also registers `arguments_release` with `atexit`
(modelled by the pipeline's `setCalled` / `released` fields). -/
def arguments_set {V : Type} (ds : List (Descriptor V)) (recs : List (Rec V)) :
    Bool × List (Rec V) × List SetEvent :=
  arguments_set_go ds 0 (true, recs, [])

/-- `arguments_release`: the positions, in declaration order, of the
records whose `initialized` flag is set — exactly the records whose
`release` block runs, once each. -/
def releaseList {V : Type} (recs : List (Rec V)) : List Nat :=
  (List.range recs.length).filter (fun i => (getRec recs i).initialized)

/-- Whether descriptor `i`'s `is_required` expression evaluates true
under the final presence flags. -/
def reqAt {V : Type} (ds : List (Descriptor V)) (recs : List (Rec V)) (i : Nat) : Bool :=
  ((ds.get? i).map (fun d => d.is_required (recs.map (fun r => r.present)))).getD false

/-- The generated `if ((is_required) && !arguments.name.present)` test
of `main` for descriptor `i`. -/
def missAt {V : Type} (ds : List (Descriptor V)) (recs : List (Rec V)) (i : Nat) : Bool :=
  reqAt ds recs i && !(getRec recs i).present

/-- The first descriptor, in declaration order, that is required but
absent (the missing-argument scan of `main`). -/
def firstMissing {V : Type} (ds : List (Descriptor V)) (recs : List (Rec V)) : Option Nat :=
  (List.range ds.length).find? (fun i => missAt ds recs i)

/-- Which return site of the generated `main` terminated the process. -/
inductive Outcome where
  | ranOk
  | helpRequested
  | invalidArgs
  | missingRequired
  | setupFailed
  | invalidValue
deriving DecidableEq

/-- Observable result of one process run of the generated `main`:
the return site, the exit code, the final records, whether
`arguments_set` ran (and hence registered `arguments_release` with
`atexit`), and the positions released at process exit. -/
structure PipelineResult (V : Type) where
  outcome : Outcome
  exitCode : Int
  recs : List (Rec V)
  setCalled : Bool
  released : List Nat

/-- The read phase of `main`: `arguments_initialize()` then
`arguments_read(argc, argv, &nextarg)` with `nextarg = 1`. -/
def readPhase {V : Type} (ds : List (Descriptor V)) (argv : List Str) : ReadResult V :=
  arguments_read ds argv 1 (initRecs ds)

/-- The materialization phase of `main`: `arguments_set()` on the
records produced by the read phase. -/
def setPhase {V : Type} (ds : List (Descriptor V)) (argv : List Str) :
    Bool × List (Rec V) × List SetEvent :=
  arguments_set ds (readPhase ds argv).recs

/-- The generated `main` of automatic mode (with the default return
codes `ARGUMENTS_PARAMETER_INVALID = 110` and
`ARGUMENTS_PARAMETER_MISSING = 120`): read the arguments; on `AC_HELP`
return 0; on `AC_ERROR` return 110; then scan for missing required
arguments (return 120); then call `setup` (modelled by its return code
`setupCode`; non-zero terminates with that code); then `arguments_set`
(which registers the release pass with `atexit`); on error return 110,
otherwise return `run`'s result `runCode`.  `released` is what the
`atexit`-registered `arguments_release` releases at process exit. -/
def mainRun {V : Type} (ds : List (Descriptor V)) (argv : List Str)
    (setupCode runCode : Int) : PipelineResult V :=
  match (readPhase ds argv).status with
  | AC.help => ⟨Outcome.helpRequested, 0, (readPhase ds argv).recs, false, []⟩
  | AC.error => ⟨Outcome.invalidArgs, 110, (readPhase ds argv).recs, false, []⟩
  | AC.ok =>
    match firstMissing ds (readPhase ds argv).recs with
    | some _ => ⟨Outcome.missingRequired, 120, (readPhase ds argv).recs, false, []⟩
    | none =>
      if setupCode ≠ 0 then
        ⟨Outcome.setupFailed, setupCode, (readPhase ds argv).recs, false, []⟩
      else if (setPhase ds argv).1 then
        ⟨Outcome.ranOk, runCode, (setPhase ds argv).2.1, true, releaseList (setPhase ds argv).2.1⟩
      else
        ⟨Outcome.invalidValue, 110, (setPhase ds argv).2.1, true, releaseList (setPhase ds argv).2.1⟩

/-- The value `arguments_set` computes for descriptor `e` the moment it
is processed (records at positions `< e` may have been updated by then,
but only at their own positions, so the inputs of descriptor `e` are
its original record). -/
def matValue {V : Type} (ds : List (Descriptor V)) (recs : List (Rec V)) (e : Nat) : Option V :=
  match ds.get? e with
  | some d => stepVal d (getRec recs e)
  | none => none

/-! ## The line-wrap primitive of the help renderer -/

/-- `isspace` of the C locale for ASCII. -/
def isspaceC (c : Char) : Bool := c.toNat = 32 || (9 ≤ c.toNat && c.toNat ≤ 13)

/-- `s[i]` with an arbitrary default out of range (never reached: the
loop guarantees `i < strlen(s)`). -/
def getChar (s : List Char) (i : Nat) : Char := (s.get? i).getD (Char.ofNat 0)

/-- The scanning loop of `arguments_get_line`, for single-byte
characters (`mbrlen` = 1, so the byte position `i` and the printed
column count `l` advance together).  `fuel` is exactly `strlen s - i`,
so `fuel = 0` is exactly the exit condition `i < end` failing; the
other exit condition `l < max_length` is tested inside.  The
accumulators `len` / `res` are the current `*length` and `result`;
`was` / `seen` are `was_space` and `seen_space`. -/
def get_line_go (s : List Char) (maxl : Nat) :
    Nat → Nat → Nat → Nat → Nat → Bool → Bool → Nat × Nat
  | 0, _i, _l, len, res, _was, _seen => (len, res)
  | fuel + 1, i, l, len, res, was, seen =>
    if l < maxl then
      let c := getChar s i
      if c = '\n' then (l, i + 1)
      else
        -- if no space seen yet, squeeze the word in so far
        let len1 := if seen then len else l
        let res1 := if seen then res else i
        let sp := isspaceC c
        let seen1 := seen || sp
        -- after `l++`: a space ending a word sets `*length = l - 1`
        let len2 := if sp && !was then l else len1
        -- a word starting after space sets `result = i`
        let res2 := if !sp && was then i else res1
        -- after `i += 1`: reaching the end includes everything
        let len3 := if i + 1 = s.length then l + 1 else len2
        let res3 := if i + 1 = s.length then i + 1 else res2
        get_line_go s maxl fuel (i + 1) (l + 1) len3 res3 sp seen1
    else (len, res)

/-- The trailing `while ((result < end) && (s[result] == ' ')) result++;`
of `arguments_get_line`; `fuel` is exactly `strlen s - r`. -/
def skipTrailing_go (s : List Char) : Nat → Nat → Nat
  | 0, r => r
  | fuel + 1, r => if getChar s r = ' ' then skipTrailing_go s fuel (r + 1) else r

/-- Skip the run of plain spaces after the computed break. -/
def skipTrailing (s : List Char) (r : Nat) : Nat :=
  skipTrailing_go s (s.length - r) r

/-- `arguments_get_line` for single-byte text: returns
(`*length`, the offset of the next line).  After the loop, `result` is
clamped up to `*length` and trailing spaces are skipped. -/
def arguments_get_line (s : List Char) (max_length : Nat) : Nat × Nat :=
  let p := get_line_go s max_length s.length 0 0 0 0 false false
  let r := if p.2 < p.1 then p.1 else p.2
  (p.1, skipTrailing s r)

/-- The printing loop of `arguments_print_help_string`: repeatedly take
a line of at most `maxl` columns and continue at the returned offset,
until the string is exhausted (`fuel` bounds the iterations; any
`fuel ≥ length s` is enough when every step makes progress). -/
def wrapLines : Nat → List Char → Nat → List (List Char)
  | 0, _, _ => []
  | fuel + 1, s, maxl =>
    if s.isEmpty then []
    else
      let p := arguments_get_line s maxl
      s.take p.1 :: wrapLines fuel (s.drop p.2) maxl

/-! ## Concrete fixtures used by witnesses and counterexamples -/

/-- The program name `argv[0]`. -/
def pTok : Str := ['p']

/-- A descriptor `cnt` with arity 1 and no default behaviour of note. -/
def dCnt : Descriptor Unit :=
  ⟨['c', 'n', 't'], none, 1, fun _ => false, fun _ _ => some (), some ()⟩

/-- Schema with the single descriptor `cnt`. -/
def wds1 : List (Descriptor Unit) := [dCnt]

/-- `argv = ["p", "--cnt"]`: the flag is last, so its value is missing. -/
def wargv1 : List Str := [pTok, ['-', '-', 'c', 'n', 't']]

/-- `argv = ["p", "-h", "--cnt"]`: help flag in reach of the scan. -/
def wargv6 : List Str := [pTok, ['-', 'h'], ['-', '-', 'c', 'n', 't']]

/-- A descriptor `x` whose short alias is the token `--foo`. -/
def dShadow : Descriptor Unit :=
  ⟨['x'], some ['-', '-', 'f', 'o', 'o'], 0, fun _ => false, fun _ _ => some (), some ()⟩

/-- A descriptor with long name `foo`. -/
def dFoo : Descriptor Unit :=
  ⟨['f', 'o', 'o'], none, 0, fun _ => false, fun _ _ => some (), some ()⟩

/-- Schema where a short alias shadows another descriptor's long form. -/
def cexDs2 : List (Descriptor Unit) := [dShadow, dFoo]

/-- A descriptor named `a_b` (long form `--a-b`). -/
def dAB : Descriptor Unit :=
  ⟨['a', '_', 'b'], none, 0, fun _ => false, fun _ _ => some (), some ()⟩

/-- A descriptor named `c` with short alias `-c`. -/
def dC : Descriptor Unit :=
  ⟨['c'], some ['-', 'c'], 0, fun _ => false, fun _ _ => some (), some ()⟩

/-- A well-formed two-descriptor schema. -/
def wds2 : List (Descriptor Unit) := [dAB, dC]

/-- Optional descriptor `a` (arity 0) whose `read` block always fails. -/
def dA4 : Descriptor Unit :=
  ⟨['a'], none, 0, fun _ => false, fun _ _ => none, some ()⟩

/-- Required descriptor `b` (arity 0). -/
def dB4 : Descriptor Unit :=
  ⟨['b'], none, 0, fun _ => true, fun _ _ => some (), some ()⟩

/-- Schema: `a` (reader always invalid), then required `b`. -/
def cexDs4 : List (Descriptor Unit) := [dA4, dB4]

/-- `argv = ["p", "--a"]`: `a` present (and its reader would fail),
required `b` absent. -/
def cexArgv4 : List Str := [pTok, ['-', '-', 'a']]

/-- Schema with one required descriptor `r`. -/
def wds4 : List (Descriptor Unit) :=
  [⟨['r'], none, 0, fun _ => true, fun _ _ => some (), some ()⟩]

/-- `argv = ["p"]`: nothing passed. -/
def wargv4 : List Str := [pTok]

/-- Optional descriptor whose `set_default` succeeds. -/
def dOk5 : Descriptor Unit :=
  ⟨['a'], none, 0, fun _ => false, fun _ _ => some (), some ()⟩

/-- Descriptor whose `read` block always reports an invalid value. -/
def dBad5 : Descriptor Unit :=
  ⟨['b'], none, 0, fun _ => false, fun _ _ => none, some ()⟩

/-- A descriptor declared after the failing one. -/
def dAfter5 : Descriptor Unit :=
  ⟨['c'], none, 0, fun _ => false, fun _ _ => some (), some ()⟩

/-- Schema: ok, failing, then untouched descriptor. -/
def ds5 : List (Descriptor Unit) := [dOk5, dBad5, dAfter5]

/-- Records where only the middle descriptor was passed. -/
def recs5 : List (Rec Unit) := [zeroRec, { (zeroRec : Rec Unit) with present := true }, zeroRec]

/-- Schema with one absent defaulted descriptor. -/
def ds7 : List (Descriptor Unit) := [dOk5]

/-- Zeroed records for `ds7`. -/
def recs7 : List (Rec Unit) := [zeroRec]

/-- The word `ghijklmnop` (10 characters, no spaces). -/
def gw : List Char := ['g', 'h', 'i', 'j', 'k', 'l', 'm', 'n', 'o', 'p']

/-- The help text `abc def ghijklmnop` of the concrete wrap scenario. -/
def t9 : List Char :=
  ['a', 'b', 'c', ' ', 'd', 'e', 'f', ' ',
   'g', 'h', 'i', 'j', 'k', 'l', 'm', 'n', 'o', 'p']

/-! ## Helper lemmas -/

theorem get?_modifyIdx {α : Type} (f : α → α) :
    ∀ (m : Nat) (l : List α) (i : Nat),
      (modifyIdx f m l).get? i = if i = m then (l.get? i).map f else l.get? i := by
  intro m l
  induction l generalizing m with
  | nil => intro i; cases m <;> simp [modifyIdx]
  | cons a as ih =>
    intro i
    cases m with
    | zero => cases i <;> simp [modifyIdx]
    | succ n =>
      cases i with
      | zero => simp [modifyIdx]
      | succ i2 => simpa [modifyIdx, Nat.succ_eq_add_one] using ih n i2

theorem getRec_modifyIdx_ne {V : Type} (f : Rec V → Rec V) (m : Nat)
    (recs : List (Rec V)) (i : Nat) (h : i ≠ m) :
    getRec (modifyIdx f m recs) i = getRec recs i := by
  unfold getRec
  rw [get?_modifyIdx, if_neg h]

theorem getRec_modifyIdx_self {V : Type} (f : Rec V → Rec V) (m : Nat)
    (recs : List (Rec V)) (h : m < recs.length) :
    getRec (modifyIdx f m recs) m = f (getRec recs m) := by
  unfold getRec
  rw [get?_modifyIdx, if_pos rfl, List.get?_eq_get h]
  rfl

theorem getRec_initialized_modify {V : Type} (f : Rec V → Rec V)
    (hf : ∀ r, (f r).initialized = r.initialized) (m : Nat)
    (recs : List (Rec V)) (i : Nat) :
    (getRec (modifyIdx f m recs) i).initialized = (getRec recs i).initialized := by
  by_cases h : i = m
  · subst h
    by_cases hm : i < recs.length
    · rw [getRec_modifyIdx_self _ _ _ hm, hf]
    · have hnone : recs.get? i = none := List.get?_eq_none.2 (Nat.le_of_not_lt hm)
      unfold getRec
      rw [get?_modifyIdx, if_pos rfl, hnone]
      rfl
  · rw [getRec_modifyIdx_ne _ _ _ _ h]

theorem getRec_initRecs {V : Type} (ds : List (Descriptor V)) (i : Nat) :
    getRec (initRecs ds) i = zeroRec := by
  unfold getRec initRecs
  rcases h : (List.replicate ds.length (zeroRec : Rec V)).get? i with _ | r
  · rfl
  · rw [Option.getD_some]
    exact List.eq_of_mem_replicate (List.get?_mem h)

/-! ### The comparator -/

theorem cmp_loop_fst_mem : ∀ (as ns : Str) (c : Char) (cs : Str),
    (cmp_loop as ns).1 = c :: cs → c ∈ as := by
  intro as
  induction as with
  | nil =>
    intro ns c cs h
    cases ns <;> simp [cmp_loop] at h
  | cons a as ih =>
    intro ns c cs h
    cases ns with
    | nil =>
      simp [cmp_loop] at h
      exact h.1 ▸ List.mem_cons_self _ _
    | cons n ns2 =>
      simp only [cmp_loop] at h
      by_cases hc : a = cNorm n
      · rw [if_pos hc] at h
        exact List.mem_cons_of_mem _ (ih ns2 c cs h)
      · rw [if_neg hc] at h
        simp at h
        exact h.1 ▸ List.mem_cons_self _ _

theorem cmp_loop_snd_mem : ∀ (as ns : Str) (c : Char) (cs : Str),
    (cmp_loop as ns).2 = c :: cs → c ∈ ns := by
  intro as
  induction as with
  | nil =>
    intro ns c cs h
    cases ns <;> simp [cmp_loop] at h
    exact h.1 ▸ List.mem_cons_self _ _
  | cons a as ih =>
    intro ns c cs h
    cases ns with
    | nil => simp [cmp_loop] at h
    | cons n ns2 =>
      simp only [cmp_loop] at h
      by_cases hc : a = cNorm n
      · rw [if_pos hc] at h
        exact List.mem_cons_of_mem _ (ih ns2 c cs h)
      · rw [if_neg hc] at h
        simp at h
        exact h.1 ▸ List.mem_cons_self _ _

theorem cmp_loop_eq_nil_iff : ∀ (as ns : Str),
    cmp_loop as ns = ([], []) ↔ as = ns.map cNorm := by
  intro as
  induction as with
  | nil =>
    intro ns
    cases ns <;> simp [cmp_loop]
  | cons a as ih =>
    intro ns
    cases ns with
    | nil => simp [cmp_loop]
    | cons n ns2 =>
      simp only [cmp_loop]
      by_cases hc : a = cNorm n
      · rw [if_pos hc]
        simp [ih ns2, hc]
      · rw [if_neg hc]
        simp [hc]

theorem arguments_cmp_not_dash1 (c1 : Char) (rest1 n : Str) (h : c1 ≠ '-') :
    arguments_cmp (c1 :: rest1) n = -1 := by
  simp only [arguments_cmp]
  rw [if_pos h]

theorem arguments_cmp_dash_nil (n : Str) : arguments_cmp ['-'] n = -1 := by
  simp only [arguments_cmp]
  rw [if_neg (by simp)]

theorem arguments_cmp_not_dash2 (c2 : Char) (rest2 n : Str) (h : c2 ≠ '-') :
    arguments_cmp ('-' :: c2 :: rest2) n = -1 := by
  simp only [arguments_cmp]
  rw [if_neg (by simp), if_pos h]

theorem arguments_cmp_dash2 (rest2 n : Str) :
    arguments_cmp ('-' :: '-' :: rest2) n =
      (if headCode (cmp_loop rest2 n).1 - underscoreBit (cmp_loop rest2 n).2 = 0
        then headCode (cmp_loop rest2 n).2 else (('-').toNat : Int)) := by
  simp only [arguments_cmp]
  rw [if_neg (by simp), if_neg (by simp)]

theorem cmp_core_eq_zero_iff (rest n : Str)
    (hr : ∀ c ∈ rest, c.toNat ≠ 0) (hn : ∀ c ∈ n, c.toNat ≠ 0) :
    ((if headCode (cmp_loop rest n).1 - underscoreBit (cmp_loop rest n).2 = 0
      then headCode (cmp_loop rest n).2 else (('-').toNat : Int)) = 0)
    ↔ rest = n.map cNorm := by
  constructor
  · intro h
    by_cases hcond : headCode (cmp_loop rest n).1 - underscoreBit (cmp_loop rest n).2 = 0
    · rw [if_pos hcond] at h
      have hsnd : (cmp_loop rest n).2 = [] := by
        rcases h2 : (cmp_loop rest n).2 with _ | ⟨c, cs⟩
        · rfl
        · exfalso
          rw [h2] at h
          simp only [headCode] at h
          exact hn c (cmp_loop_snd_mem rest n c cs h2) (by exact_mod_cast h)
      have hfst : (cmp_loop rest n).1 = [] := by
        rw [hsnd] at hcond
        simp only [underscoreBit, Int.sub_zero] at hcond
        rcases h2 : (cmp_loop rest n).1 with _ | ⟨c, cs⟩
        · rfl
        · exfalso
          rw [h2] at hcond
          simp only [headCode] at hcond
          exact hr c (cmp_loop_fst_mem rest n c cs h2) (by exact_mod_cast hcond)
      exact (cmp_loop_eq_nil_iff rest n).1 (Prod.ext hfst hsnd)
    · rw [if_neg hcond] at h
      exact absurd h (by decide)
  · intro h
    have hnil : cmp_loop rest n = ([], []) := (cmp_loop_eq_nil_iff rest n).2 h
    rw [hnil]
    simp [headCode, underscoreBit]

theorem arguments_cmp_eq_zero_iff (t n : Str)
    (ht : ∀ c ∈ t, c.toNat ≠ 0) (hn : ∀ c ∈ n, c.toNat ≠ 0) :
    arguments_cmp t n = 0 ↔ t = longForm n := by
  cases t with
  | nil =>
    constructor
    · intro h
      rw [show arguments_cmp [] n = -1 from rfl] at h
      exact absurd h (by decide)
    · intro h
      exact absurd h (by simp [longForm])
  | cons c1 rest1 =>
    by_cases h1 : c1 = '-'
    · subst h1
      cases rest1 with
      | nil =>
        rw [arguments_cmp_dash_nil]
        constructor
        · intro h; exact absurd h (by decide)
        · intro h; simp [longForm] at h
      | cons c2 rest2 =>
        by_cases h2 : c2 = '-'
        · subst h2
          rw [arguments_cmp_dash2]
          have hrr : ∀ c ∈ rest2, c.toNat ≠ 0 := fun c hc =>
            ht c (List.mem_cons_of_mem _ (List.mem_cons_of_mem _ hc))
          rw [cmp_core_eq_zero_iff rest2 n hrr hn]
          simp [longForm]
        · rw [arguments_cmp_not_dash2 c2 rest2 n h2]
          constructor
          · intro h; exact absurd h (by decide)
          · intro h
            simp only [longForm, List.cons.injEq] at h
            exact absurd h.2.1 h2
    · rw [arguments_cmp_not_dash1 c1 rest1 n h1]
      constructor
      · intro h; exact absurd h (by decide)
      · intro h
        simp only [longForm, List.cons.injEq] at h
        exact absurd h.1 h1

theorem longForm_noNul (n : Str) (hn : ∀ c ∈ n, c.toNat ≠ 0) :
    ∀ c ∈ longForm n, c.toNat ≠ 0 := by
  intro c hc
  simp only [longForm, List.mem_cons, List.mem_map] at hc
  rcases hc with rfl | rfl | ⟨d, hd, rfl⟩
  · decide
  · decide
  · by_cases hu : d = '_'
    · rw [hu]; decide
    · rw [show cNorm d = d from if_neg hu]
      exact hn d hd

theorem cNorm_map_inj : ∀ (a b : Str), (∀ c ∈ a, c ≠ '-') → (∀ c ∈ b, c ≠ '-') →
    a.map cNorm = b.map cNorm → a = b := by
  intro a
  induction a with
  | nil =>
    intro b _ _ h
    cases b with
    | nil => rfl
    | cons x xs => simp at h
  | cons x xs ih =>
    intro b ha hb h
    cases b with
    | nil => simp at h
    | cons y ys =>
      simp only [List.map_cons, List.cons.injEq] at h
      have hx : x ≠ '-' := ha x (List.mem_cons_self _ _)
      have hy : y ≠ '-' := hb y (List.mem_cons_self _ _)
      have hxy : x = y := by
        by_cases hux : x = '_' <;> by_cases huy : y = '_' <;>
          simp [cNorm, hux, huy] at h ⊢
        · exact absurd h.1.symm hy
        · exact absurd h.1 hx
        · exact h.1
      have hrest := ih ys (fun c hc => ha c (List.mem_cons_of_mem _ hc))
        (fun c hc => hb c (List.mem_cons_of_mem _ hc)) h.2
      rw [hxy, hrest]

/-! ### The token matcher -/

theorem length_modifyIdx {α : Type} (f : α → α) : ∀ (m : Nat) (l : List α),
    (modifyIdx f m l).length = l.length := by
  intro m l
  induction l generalizing m with
  | nil => cases m <;> rfl
  | cons a as ih =>
    cases m with
    | zero => rfl
    | succ n => simpa [modifyIdx] using ih n

theorem getRec_modify_proj {V α : Type} (proj : Rec V → α) (f : Rec V → Rec V)
    (hf : ∀ r, proj (f r) = proj r) (m : Nat) (recs : List (Rec V)) (i : Nat) :
    proj (getRec (modifyIdx f m recs) i) = proj (getRec recs i) := by
  by_cases h : i = m
  · subst h
    by_cases hm : i < recs.length
    · rw [getRec_modifyIdx_self _ _ _ hm, hf]
    · have hnone : recs.get? i = none := List.get?_eq_none.2 (Nat.le_of_not_lt hm)
      unfold getRec
      rw [get?_modifyIdx, if_pos rfl, hnone]
      rfl
  · rw [getRec_modifyIdx_ne _ _ _ _ h]

theorem arityAt_eq {V : Type} (ds : List (Descriptor V)) (m : Nat) (hm : m < ds.length) :
    arityAt ds m = (ds.get ⟨m, hm⟩).value_count := by
  unfold arityAt
  rw [List.get?_eq_get hm]
  rfl

theorem findMatch_eq_some_of {V : Type} (tok : Str) :
    ∀ (ds : List (Descriptor V)) (m : Nat) (hm : m < ds.length),
      (∀ e (he : e < m), matchesTok tok (ds.get ⟨e, Nat.lt_trans he hm⟩) = false) →
      matchesTok tok (ds.get ⟨m, hm⟩) = true →
      findMatch tok ds = some m := by
  intro ds
  induction ds with
  | nil =>
    intro m hm
    exact absurd hm (by simp)
  | cons d dl ih =>
    intro m hm hlt hmtch
    cases m with
    | zero =>
      have hd : matchesTok tok d = true := hmtch
      simp [findMatch, hd]
    | succ m2 =>
      have h0 : matchesTok tok d = false := hlt 0 (Nat.succ_pos m2)
      have hm2 : m2 < dl.length := Nat.lt_of_succ_lt_succ hm
      have hrec := ih m2 hm2 (fun e he => hlt (e + 1) (Nat.succ_lt_succ he)) hmtch
      simp [findMatch, h0, hrec]

theorem read_loop_stop {V : Type} (ds : List (Descriptor V)) (argv : List Str)
    (j : Nat) (recs : List (Rec V)) (h : ¬ j < argv.length) :
    arguments_read_loop ds argv j recs = ⟨AC.ok, j, recs⟩ := by
  rw [arguments_read_loop, dif_neg h]

theorem read_loop_help {V : Type} (ds : List (Descriptor V)) (argv : List Str)
    (j : Nat) (recs : List (Rec V)) (h : j < argv.length)
    (hh : argv.get ⟨j, h⟩ = helpLong ∨ argv.get ⟨j, h⟩ = helpShort) :
    arguments_read_loop ds argv j recs = ⟨AC.help, j, recs⟩ := by
  rw [arguments_read_loop, dif_pos h]
  simp only [if_pos hh]

theorem read_loop_nomatch {V : Type} (ds : List (Descriptor V)) (argv : List Str)
    (j : Nat) (recs : List (Rec V)) (h : j < argv.length)
    (hnh : ¬(argv.get ⟨j, h⟩ = helpLong ∨ argv.get ⟨j, h⟩ = helpShort))
    (hfm : findMatch (argv.get ⟨j, h⟩) ds = none) :
    arguments_read_loop ds argv j recs = ⟨AC.ok, j, recs⟩ := by
  rw [arguments_read_loop, dif_pos h]
  simp only [if_neg hnh, hfm]

theorem read_loop_match_cont {V : Type} (ds : List (Descriptor V)) (argv : List Str)
    (j : Nat) (recs : List (Rec V)) (m : Nat) (h : j < argv.length)
    (hnh : ¬(argv.get ⟨j, h⟩ = helpLong ∨ argv.get ⟨j, h⟩ = helpShort))
    (hfm : findMatch (argv.get ⟨j, h⟩) ds = some m)
    (hlt : j + arityAt ds m < argv.length) :
    arguments_read_loop ds argv j recs =
      arguments_read_loop ds argv (j + 1 + arityAt ds m)
        (modifyIdx (fun r => { r with value_strings := some ((argv.drop (j + 1)).take (arityAt ds m)) }) m
          (modifyIdx (fun r => { r with present := true, value_strings_length := arityAt ds m }) m recs)) := by
  conv_lhs => rw [arguments_read_loop]
  rw [dif_pos h]
  simp only [if_neg hnh, hfm, if_pos hlt]

theorem read_loop_match_err {V : Type} (ds : List (Descriptor V)) (argv : List Str)
    (j : Nat) (recs : List (Rec V)) (m : Nat) (h : j < argv.length)
    (hnh : ¬(argv.get ⟨j, h⟩ = helpLong ∨ argv.get ⟨j, h⟩ = helpShort))
    (hfm : findMatch (argv.get ⟨j, h⟩) ds = some m)
    (hge : ¬ j + arityAt ds m < argv.length) :
    arguments_read_loop ds argv j recs =
      ⟨AC.error, j,
        modifyIdx (fun r => { r with present := true, value_strings_length := arityAt ds m }) m recs⟩ := by
  rw [arguments_read_loop, dif_pos h]
  simp only [if_neg hnh, hfm, if_neg hge]

theorem read_loop_initialized {V : Type} (ds : List (Descriptor V)) (argv : List Str) :
    ∀ (fuel j : Nat) (recs : List (Rec V)), argv.length - j ≤ fuel →
      ∀ i, (getRec ((arguments_read_loop ds argv j recs).recs) i).initialized
        = (getRec recs i).initialized := by
  intro fuel
  induction fuel with
  | zero =>
    intro j recs hle i
    have hj : ¬ j < argv.length := by omega
    rw [read_loop_stop _ _ _ _ hj]
  | succ fu ih =>
    intro j recs hle i
    by_cases hj : j < argv.length
    · by_cases hh : argv.get ⟨j, hj⟩ = helpLong ∨ argv.get ⟨j, hj⟩ = helpShort
      · rw [read_loop_help _ _ _ _ hj hh]
      · rcases hfm : findMatch (argv.get ⟨j, hj⟩) ds with _ | m
        · rw [read_loop_nomatch _ _ _ _ hj hh hfm]
        · by_cases hlt : j + arityAt ds m < argv.length
          · rw [read_loop_match_cont _ _ _ _ _ hj hh hfm hlt]
            rw [ih _ _ (by omega) i]
            rw [getRec_modify_proj (fun r => r.initialized)
                (fun r => { r with value_strings := some ((argv.drop (j + 1)).take (arityAt ds m)) })
                (fun r => rfl) m _ i,
              getRec_modify_proj (fun r => r.initialized)
                (fun r => { r with present := true, value_strings_length := arityAt ds m })
                (fun r => rfl) m recs i]
          · rw [read_loop_match_err _ _ _ _ _ hj hh hfm hlt]
            exact getRec_modify_proj (fun r => r.initialized)
              (fun r => { r with present := true, value_strings_length := arityAt ds m })
              (fun r => rfl) m recs i
    · rw [read_loop_stop _ _ _ _ hj]

theorem readPhase_initialized {V : Type} (ds : List (Descriptor V)) (argv : List Str)
    (i : Nat) :
    (getRec ((readPhase ds argv).recs) i).initialized = false := by
  unfold readPhase arguments_read
  rw [read_loop_initialized ds argv argv.length _ _ (by omega) i, getRec_initRecs]
  rfl

/-! ### The materializer -/

theorem setStep_some {V : Type} (d : Descriptor V) (i : Nat)
    (st : Bool × List (Rec V) × List SetEvent) (v : V)
    (hv : st.1 = true) (hsv : stepVal d (getRec st.2.1 i) = some v) :
    setStep d i st = (true,
      modifyIdx (fun r => { r with value := some v, initialized := true }) i st.2.1,
      st.2.2 ++ [stepEvent (getRec st.2.1 i) i]) := by
  unfold setStep
  rw [if_pos hv, hsv]

theorem setStep_none {V : Type} (d : Descriptor V) (i : Nat)
    (st : Bool × List (Rec V) × List SetEvent)
    (hv : st.1 = true) (hsv : stepVal d (getRec st.2.1 i) = none) :
    setStep d i st = (false, st.2.1, st.2.2 ++ [stepEvent (getRec st.2.1 i) i]) := by
  unfold setStep
  rw [if_pos hv, hsv]

theorem setStep_false {V : Type} (d : Descriptor V) (i : Nat)
    (st : Bool × List (Rec V) × List SetEvent) (hv : st.1 = false) :
    setStep d i st = st := by
  unfold setStep
  rw [hv]
  rfl

theorem set_go_frozen {V : Type} : ∀ (dl : List (Descriptor V)) (i : Nat)
    (recs : List (Rec V)) (evs : List SetEvent),
    arguments_set_go dl i (false, recs, evs) = (false, recs, evs) := by
  intro dl
  induction dl with
  | nil => intro i recs evs; rfl
  | cons d dl ih =>
    intro i recs evs
    show arguments_set_go dl (i + 1) (setStep d i (false, recs, evs)) = _
    rw [setStep_false d i _ rfl]
    exact ih (i + 1) recs evs

theorem setStep_present {V : Type} (d : Descriptor V) (i : Nat)
    (st : Bool × List (Rec V) × List SetEvent) (l : Nat) :
    (getRec (setStep d i st).2.1 l).present = (getRec st.2.1 l).present := by
  by_cases hv : st.1 = true
  · rcases hsv : stepVal d (getRec st.2.1 i) with _ | v
    · rw [setStep_none d i st hv hsv]
    · rw [setStep_some d i st v hv hsv]
      exact getRec_modify_proj (fun r => r.present)
        (fun r => { r with value := some v, initialized := true }) (fun r => rfl) i st.2.1 l
  · rw [setStep_false d i st (by simpa using hv)]

theorem set_go_below {V : Type} : ∀ (dl : List (Descriptor V)) (i : Nat)
    (st : Bool × List (Rec V) × List SetEvent) (l : Nat), l < i →
    getRec (arguments_set_go dl i st).2.1 l = getRec st.2.1 l := by
  intro dl
  induction dl with
  | nil => intro i st l _; rfl
  | cons d dl ih =>
    intro i st l hl
    show getRec (arguments_set_go dl (i + 1) (setStep d i st)).2.1 l = _
    rw [ih (i + 1) (setStep d i st) l (Nat.lt_succ_of_lt hl)]
    by_cases hv : st.1 = true
    · rcases hsv : stepVal d (getRec st.2.1 i) with _ | v
      · rw [setStep_none d i st hv hsv]
      · rw [setStep_some d i st v hv hsv]
        exact getRec_modifyIdx_ne _ _ _ _ (by omega)
    · rw [setStep_false d i st (by simpa using hv)]

theorem set_go_present {V : Type} : ∀ (dl : List (Descriptor V)) (i : Nat)
    (st : Bool × List (Rec V) × List SetEvent) (l : Nat),
    (getRec (arguments_set_go dl i st).2.1 l).present = (getRec st.2.1 l).present := by
  intro dl
  induction dl with
  | nil => intro i st l; rfl
  | cons d dl ih =>
    intro i st l
    show (getRec (arguments_set_go dl (i + 1) (setStep d i st)).2.1 l).present = _
    rw [ih (i + 1) (setStep d i st) l, setStep_present d i st l]

theorem set_go_events {V : Type} : ∀ (dl : List (Descriptor V)) (i : Nat)
    (st : Bool × List (Rec V) × List SetEvent) (ev : SetEvent),
    ev ∈ (arguments_set_go dl i st).2.2 →
      ev ∈ st.2.2 ∨ ∃ l, i ≤ l ∧ ev = stepEvent (getRec st.2.1 l) l := by
  intro dl
  induction dl with
  | nil => intro i st ev h; exact Or.inl h
  | cons d dl ih =>
    intro i st ev h
    have h2 := ih (i + 1) (setStep d i st) ev h
    rcases h2 with h2 | ⟨l, hl, hev⟩
    · by_cases hv : st.1 = true
      · rcases hsv : stepVal d (getRec st.2.1 i) with _ | v
        · rw [setStep_none d i st hv hsv] at h2
          rcases List.mem_append.1 h2 with h3 | h3
          · exact Or.inl h3
          · exact Or.inr ⟨i, Nat.le_refl i, by simpa using h3⟩
        · rw [setStep_some d i st v hv hsv] at h2
          rcases List.mem_append.1 h2 with h3 | h3
          · exact Or.inl h3
          · exact Or.inr ⟨i, Nat.le_refl i, by simpa using h3⟩
      · rw [setStep_false d i st (by simpa using hv)] at h2
        exact Or.inl h2
    · right
      refine ⟨l, Nat.le_of_succ_le hl, ?_⟩
      rw [hev]
      unfold stepEvent
      rw [setStep_present d i st l]

theorem matValue_eq {V : Type} (ds : List (Descriptor V)) (recs : List (Rec V))
    (e : Nat) (he : e < ds.length) :
    matValue ds recs e = stepVal (ds.get ⟨e, he⟩) (getRec recs e) := by
  unfold matValue
  rw [List.get?_eq_get he]

theorem set_go_fail {V : Type} : ∀ (dl : List (Descriptor V)) (i0 : Nat)
    (recs : List (Rec V)) (evs : List SetEvent) (f : Nat) (hf : f < dl.length),
    (∀ e (he : e < f), (stepVal (dl.get ⟨e, Nat.lt_trans he hf⟩) (getRec recs (i0 + e))).isSome = true) →
    stepVal (dl.get ⟨f, hf⟩) (getRec recs (i0 + f)) = none →
    i0 + dl.length ≤ recs.length →
    (arguments_set_go dl i0 (true, recs, evs)).1 = false ∧
    (∀ l, i0 + f ≤ l → getRec (arguments_set_go dl i0 (true, recs, evs)).2.1 l = getRec recs l) ∧
    (∀ l, l < i0 → getRec (arguments_set_go dl i0 (true, recs, evs)).2.1 l = getRec recs l) ∧
    (∀ e, e < f → (getRec (arguments_set_go dl i0 (true, recs, evs)).2.1 (i0 + e)).initialized = true) ∧
    (∀ ev ∈ (arguments_set_go dl i0 (true, recs, evs)).2.2, ev ∈ evs ∨ evIdx ev ≤ i0 + f) := by
  intro dl
  induction dl with
  | nil =>
    intro i0 recs evs f hf
    exact absurd hf (by simp)
  | cons d dl ih =>
    intro i0 recs evs f hf hok hfail hlen
    have hlen2 : i0 + 1 + dl.length ≤ recs.length := by
      simp only [List.length_cons] at hlen
      omega
    cases f with
    | zero =>
      have hd : stepVal d (getRec recs (i0 + 0)) = none := hfail
      have hstep : setStep d i0 ((true, recs, evs) : Bool × List (Rec V) × List SetEvent)
          = (false, recs, evs ++ [stepEvent (getRec recs i0) i0]) :=
        setStep_none d i0 (true, recs, evs) rfl hd
      have hgo : arguments_set_go (d :: dl) i0 (true, recs, evs)
          = (false, recs, evs ++ [stepEvent (getRec recs i0) i0]) := by
        show arguments_set_go dl (i0 + 1) (setStep d i0 (true, recs, evs)) = _
        rw [hstep, set_go_frozen]
      rw [hgo]
      refine ⟨rfl, fun l _ => rfl, fun l _ => rfl, fun e he => absurd he (by simp), ?_⟩
      intro ev hev
      rcases List.mem_append.1 hev with h3 | h3
      · exact Or.inl h3
      · right
        have hev2 : ev = stepEvent (getRec recs i0) i0 := by simpa using h3
        rw [hev2]
        unfold stepEvent
        split <;> simp [evIdx]
    | succ f2 =>
      have hf2 : f2 < dl.length := Nat.lt_of_succ_lt_succ hf
      have hd : (stepVal d (getRec recs (i0 + 0))).isSome = true := hok 0 (Nat.succ_pos f2)
      rcases ho : stepVal d (getRec recs i0) with _ | v
      · rw [show (i0 : Nat) + 0 = i0 from rfl, ho] at hd
        cases hd
      · have hstep := setStep_some d i0 (true, recs, evs) v rfl ho
        have hgo : arguments_set_go (d :: dl) i0 (true, recs, evs)
            = arguments_set_go dl (i0 + 1)
                (true, modifyIdx (fun r => { r with value := some v, initialized := true }) i0 recs,
                 evs ++ [stepEvent (getRec recs i0) i0]) := by
          show arguments_set_go dl (i0 + 1) (setStep d i0 (true, recs, evs)) = _
          rw [hstep]
        set recs1 := modifyIdx (fun r => { r with value := some v, initialized := true }) i0 recs with hrecs1
        set evs1 := evs ++ [stepEvent (getRec recs i0) i0] with hevs1
        have hag : ∀ l2, i0 + 1 ≤ l2 → getRec recs1 l2 = getRec recs l2 := by
          intro l2 hl2
          rw [hrecs1]
          exact getRec_modifyIdx_ne _ _ _ _ (by omega)
        have hok2 : ∀ e (he : e < f2),
            (stepVal (dl.get ⟨e, Nat.lt_trans he hf2⟩) (getRec recs1 (i0 + 1 + e))).isSome = true := by
          intro e he
          rw [hag (i0 + 1 + e) (by omega), show i0 + 1 + e = i0 + (e + 1) from by omega]
          exact hok (e + 1) (Nat.succ_lt_succ he)
        have hfail2 : stepVal (dl.get ⟨f2, hf2⟩) (getRec recs1 (i0 + 1 + f2)) = none := by
          rw [hag (i0 + 1 + f2) (by omega), show i0 + 1 + f2 = i0 + (f2 + 1) from by omega]
          exact hfail
        have hlen3 : i0 + 1 + dl.length ≤ recs1.length := by
          rw [hrecs1, length_modifyIdx]
          exact hlen2
        obtain ⟨c1, c2, c3, c4, c5⟩ := ih (i0 + 1) recs1 evs1 f2 hf2 hok2 hfail2 hlen3
        rw [hgo]
        refine ⟨c1, ?_, ?_, ?_, ?_⟩
        · intro l hl
          rw [c2 l (by omega), hag l (by omega)]
        · intro l hl
          rw [c3 l (by omega), hrecs1]
          exact getRec_modifyIdx_ne _ _ _ _ (by omega)
        · intro e he
          cases e with
          | zero =>
            have hb := c3 i0 (by omega)
            rw [show (i0 : Nat) + 0 = i0 from rfl, hb, hrecs1,
              getRec_modifyIdx_self _ _ _ (by simp only [List.length_cons] at hlen; omega)]
          | succ e2 =>
            have := c4 e2 (Nat.lt_of_succ_lt_succ he)
            rw [show i0 + (e2 + 1) = i0 + 1 + e2 from by omega]
            exact this
        · intro ev hev
          rcases c5 ev hev with h5 | h5
          · rw [hevs1] at h5
            rcases List.mem_append.1 h5 with h6 | h6
            · exact Or.inl h6
            · right
              have hev2 : ev = stepEvent (getRec recs i0) i0 := by simpa using h6
              rw [hev2]
              unfold stepEvent
              split <;> simp [evIdx]
          · right
            omega

theorem set_go_init {V : Type} : ∀ (dl : List (Descriptor V)) (i0 : Nat)
    (recs : List (Rec V)) (evs : List SetEvent) (f : Nat) (hf : f < dl.length),
    (∀ e (he : e ≤ f), (stepVal (dl.get ⟨e, Nat.lt_of_le_of_lt he hf⟩) (getRec recs (i0 + e))).isSome = true) →
    i0 + dl.length ≤ recs.length →
    (getRec (arguments_set_go dl i0 (true, recs, evs)).2.1 (i0 + f)).initialized = true := by
  intro dl
  induction dl with
  | nil =>
    intro i0 recs evs f hf
    exact absurd hf (by simp)
  | cons d dl ih =>
    intro i0 recs evs f hf hok hlen
    have hd : (stepVal d (getRec recs (i0 + 0))).isSome = true := hok 0 (Nat.zero_le f)
    rcases ho : stepVal d (getRec recs i0) with _ | v
    · rw [show (i0 : Nat) + 0 = i0 from rfl, ho] at hd
      cases hd
    · have hstep := setStep_some d i0 (true, recs, evs) v rfl ho
      have hgo : arguments_set_go (d :: dl) i0 (true, recs, evs)
          = arguments_set_go dl (i0 + 1)
              (true, modifyIdx (fun r => { r with value := some v, initialized := true }) i0 recs,
               evs ++ [stepEvent (getRec recs i0) i0]) := by
        show arguments_set_go dl (i0 + 1) (setStep d i0 (true, recs, evs)) = _
        rw [hstep]
      rw [hgo]
      cases f with
      | zero =>
        rw [show (i0 : Nat) + 0 = i0 from rfl]
        rw [set_go_below dl (i0 + 1) _ i0 (by omega)]
        rw [getRec_modifyIdx_self _ _ _ (by simp only [List.length_cons] at hlen; omega)]
      | succ f2 =>
        have hf2 : f2 < dl.length := Nat.lt_of_succ_lt_succ hf
        have hok2 : ∀ e (he : e ≤ f2),
            (stepVal (dl.get ⟨e, Nat.lt_of_le_of_lt he hf2⟩)
              (getRec (modifyIdx (fun r => { r with value := some v, initialized := true }) i0 recs) (i0 + 1 + e))).isSome = true := by
          intro e he
          rw [getRec_modifyIdx_ne _ _ _ _ (by omega),
            show i0 + 1 + e = i0 + (e + 1) from by omega]
          exact hok (e + 1) (Nat.succ_le_succ he)
        have hlen3 : i0 + 1 + dl.length
            ≤ (modifyIdx (fun r => { r with value := some v, initialized := true }) i0 recs).length := by
          rw [length_modifyIdx]
          simp only [List.length_cons] at hlen
          omega
        have := ih (i0 + 1) _ (evs ++ [stepEvent (getRec recs i0) i0]) f2 hf2 hok2 hlen3
        rw [show i0 + (f2 + 1) = i0 + 1 + f2 from by omega]
        exact this

/-! ### The release pass and the missing-argument scan -/

theorem releaseList_pairwise {V : Type} (recs : List (Rec V)) :
    List.Pairwise (fun a b => a < b) (releaseList recs) :=
  List.Pairwise.filter _ (List.pairwise_lt_range _)

theorem releaseList_count {V : Type} (recs : List (Rec V)) (i : Nat) :
    (releaseList recs).count i
      = if i < recs.length ∧ (getRec recs i).initialized = true then 1 else 0 := by
  unfold releaseList
  by_cases h : i < recs.length ∧ (getRec recs i).initialized = true
  · rw [if_pos h]
    have hmem : i ∈ (List.range recs.length).filter (fun x => (getRec recs x).initialized) := by
      rw [List.mem_filter, List.mem_range]
      exact ⟨h.1, h.2⟩
    have hnd : ((List.range recs.length).filter (fun x => (getRec recs x).initialized)).Nodup :=
      (List.nodup_range _).filter _
    exact List.count_eq_one_of_mem hnd hmem
  · rw [if_neg h, List.count_eq_zero]
    intro hmem
    rw [List.mem_filter, List.mem_range] at hmem
    exact h ⟨hmem.1, hmem.2⟩

theorem firstMissing_isSome_iff {V : Type} (ds : List (Descriptor V)) (recs : List (Rec V)) :
    (∃ k, firstMissing ds recs = some k) ↔ ∃ i, i < ds.length ∧ missAt ds recs i = true := by
  unfold firstMissing
  constructor
  · rintro ⟨k, hk⟩
    have hmem := List.mem_of_find?_eq_some hk
    have hp := List.find?_some hk
    rw [List.mem_range] at hmem
    exact ⟨k, hmem, hp⟩
  · rintro ⟨i, hi, hp⟩
    rcases hf : (List.range ds.length).find? (fun x => missAt ds recs x) with _ | k
    · exfalso
      have hnone := List.find?_eq_none.1 hf i (List.mem_range.2 hi)
      exact hnone hp
    · exact ⟨k, rfl⟩

theorem mainRun_eq_missing {V : Type} (ds : List (Descriptor V)) (argv : List Str)
    (setupCode runCode : Int) (hok : (readPhase ds argv).status = AC.ok)
    (hfm : ∃ k, firstMissing ds (readPhase ds argv).recs = some k) :
    mainRun ds argv setupCode runCode
      = ⟨Outcome.missingRequired, 120, (readPhase ds argv).recs, false, []⟩ := by
  unfold mainRun
  rw [hok]
  rcases hfm with ⟨k, hk⟩
  rw [hk]

theorem mainRun_eq_help {V : Type} (ds : List (Descriptor V)) (argv : List Str)
    (setupCode runCode : Int) (hst : (readPhase ds argv).status = AC.help) :
    mainRun ds argv setupCode runCode
      = ⟨Outcome.helpRequested, 0, (readPhase ds argv).recs, false, []⟩ := by
  unfold mainRun
  rw [hst]

theorem mainRun_eq_error {V : Type} (ds : List (Descriptor V)) (argv : List Str)
    (setupCode runCode : Int) (hst : (readPhase ds argv).status = AC.error) :
    mainRun ds argv setupCode runCode
      = ⟨Outcome.invalidArgs, 110, (readPhase ds argv).recs, false, []⟩ := by
  unfold mainRun
  rw [hst]

theorem mainRun_eq_setupFailed {V : Type} (ds : List (Descriptor V)) (argv : List Str)
    (setupCode runCode : Int) (hok : (readPhase ds argv).status = AC.ok)
    (hfm : firstMissing ds (readPhase ds argv).recs = none)
    (hsu : ¬ setupCode = 0) :
    mainRun ds argv setupCode runCode
      = ⟨Outcome.setupFailed, setupCode, (readPhase ds argv).recs, false, []⟩ := by
  unfold mainRun
  rw [hok, hfm, if_pos hsu]

theorem mainRun_eq_setPhase {V : Type} (ds : List (Descriptor V)) (argv : List Str)
    (setupCode runCode : Int) (hok : (readPhase ds argv).status = AC.ok)
    (hfm : firstMissing ds (readPhase ds argv).recs = none)
    (hsu : setupCode = 0) :
    mainRun ds argv setupCode runCode
      = if (setPhase ds argv).1 = true then
          ⟨Outcome.ranOk, runCode, (setPhase ds argv).2.1, true, releaseList (setPhase ds argv).2.1⟩
        else
          ⟨Outcome.invalidValue, 110, (setPhase ds argv).2.1, true, releaseList (setPhase ds argv).2.1⟩ := by
  unfold mainRun
  rw [hok, hfm, if_neg (fun h => h hsu)]

/-! ### The line-wrap primitive -/

theorem isspaceC_ne_space {c : Char} (h : isspaceC c = false) : c ≠ ' ' := by
  intro hc
  rw [hc] at h
  exact absurd h (by decide)

theorem getChar_get (s : List Char) (i : Nat) (h : i < s.length) :
    getChar s i = s.get ⟨i, h⟩ := by
  unfold getChar
  rw [List.get?_eq_get h]
  rfl

theorem getChar_mem (s : List Char) (i : Nat) (h : i < s.length) : getChar s i ∈ s := by
  rw [getChar_get s i h]
  exact List.get_mem s i h

theorem skipTrailing_id (s : List Char) (r : Nat) (h : r < s.length → getChar s r ≠ ' ') :
    skipTrailing s r = r := by
  unfold skipTrailing
  rcases hn : s.length - r with _ | n
  · rfl
  · rw [skipTrailing_go, if_neg (h (by omega))]

theorem get_line_go_word (s : List Char) (maxl : Nat)
    (hs : ∀ c ∈ s, isspaceC c = false ∧ c ≠ '\n') :
    ∀ (fuel i : Nat) (len res : Nat), fuel = s.length - i → i < s.length → i < maxl →
      get_line_go s maxl fuel i i len res false false =
        (if s.length ≤ maxl then (s.length, s.length) else (maxl - 1, maxl - 1)) := by
  intro fuel
  induction fuel with
  | zero =>
    intro i len res hfuel hi _
    exfalso
    omega
  | succ fu ih =>
    intro i len res hfuel hi hmax
    have hcmem := getChar_mem s i hi
    have hcs := hs _ hcmem
    have step : get_line_go s maxl (fu + 1) i i len res false false =
        get_line_go s maxl fu (i + 1) (i + 1)
          (if i + 1 = s.length then i + 1 else i)
          (if i + 1 = s.length then i + 1 else i) false false := by
      rw [get_line_go, if_pos hmax, if_neg hcs.2]
      simp only [hcs.1]
      rfl
    rw [step]
    by_cases hend : i + 1 = s.length
    · rw [if_pos hend]
      have hfu : fu = 0 := by omega
      subst hfu
      rw [show get_line_go s maxl 0 (i + 1) (i + 1) (i + 1) (i + 1) false false
          = (i + 1, i + 1) from rfl]
      rw [if_pos (by omega : s.length ≤ maxl), hend]
    · rw [if_neg hend]
      by_cases hm2 : i + 1 < maxl
      · exact ih (i + 1) i i (by omega) (by omega) hm2
      · obtain ⟨fu2, rfl⟩ : ∃ fu2, fu = fu2 + 1 := ⟨fu - 1, by omega⟩
        rw [get_line_go, if_neg (by omega : ¬ i + 1 < maxl)]
        rw [if_neg (by omega : ¬ s.length ≤ maxl)]
        have hieq : i = maxl - 1 := by omega
        rw [hieq]

/-! ## The claims -/

/-- Claim C1: when the scan of `arguments_read` reaches index `j` whose token
is not the help flag and matches the descriptor at position `m` (with arity
`k = arityAt ds m`), then if at least `k` tokens remain after the flag
(`j + k < argc`) the match succeeds, capturing exactly the `k` tokens
following the flag as `value_strings` and continuing the scan after them;
otherwise `arguments_read` stops with `AC_ERROR` (insufficient values) and
the scan position `*nextarg` identifies the offending token (the flag at
index `j`). -/
theorem arguments_read_arity_capture {V : Type} (ds : List (Descriptor V))
    (argv : List Str) (recs : List (Rec V)) (j m : Nat)
    (hj : j < argv.length)
    (hnh : ¬(argv.get ⟨j, hj⟩ = helpLong ∨ argv.get ⟨j, hj⟩ = helpShort))
    (hfm : findMatch (argv.get ⟨j, hj⟩) ds = some m) :
    (j + arityAt ds m < argv.length →
      ((argv.drop (j + 1)).take (arityAt ds m)).length = arityAt ds m ∧
      arguments_read_loop ds argv j recs =
        arguments_read_loop ds argv (j + 1 + arityAt ds m)
          (modifyIdx (fun r => { r with value_strings := some ((argv.drop (j + 1)).take (arityAt ds m)) }) m
            (modifyIdx (fun r => { r with present := true, value_strings_length := arityAt ds m }) m recs))) ∧
    (¬ j + arityAt ds m < argv.length →
      (arguments_read_loop ds argv j recs).status = AC.error ∧
      (arguments_read_loop ds argv j recs).nextarg = j) := by
  constructor
  · intro hlt
    refine ⟨?_, read_loop_match_cont ds argv j recs m hj hnh hfm hlt⟩
    rw [List.length_take, List.length_drop]
    omega
  · intro hge
    rw [read_loop_match_err ds argv j recs m hj hnh hfm hge]
    exact ⟨rfl, rfl⟩

/-- Witness for C1: schema `[cnt]` (arity 1), `argv = ["p", "--cnt"]`; the
flag is the last token, so the match fails with `AC_ERROR` at index 1. -/
theorem arguments_read_arity_capture_witness :
    (arguments_read_loop wds1 wargv1 1 (initRecs wds1)).status = AC.error ∧
    (arguments_read_loop wds1 wargv1 1 (initRecs wds1)).nextarg = 1 :=
  (arguments_read_arity_capture wds1 wargv1 (initRecs wds1) 1 0 (by decide)
    (by decide) (by decide)).2 (by decide)

/-- Counterexample to C2 as stated: in the schema
`[x (short alias "--foo"), foo]` the long names are distinct and the short
aliases unique, yet the token `--foo` — the long form of descriptor 1 —
selects descriptor 0, whose short alias is the literal string `--foo`, so the
long form does not select its own descriptor independent of declaration
order. -/
theorem long_name_selection_cex :
    dShadow.name ≠ dFoo.name ∧
    findMatch (longForm dFoo.name) cexDs2 = some 0 ∧
    findMatch (longForm dFoo.name) cexDs2 ≠ some 1 :=
  ⟨by decide, by decide, by decide⟩

/-- Claim C2 (amended): for a schema whose long names are NUL-free,
dash-free (they are C identifiers in the source) and distinct, and in which
no short alias equals the long-form token in question, the token
`"--" ++ name` (underscores replaced by dashes) selects exactly the
descriptor with that name, independent of declaration order; and
`arguments_cmp` returns 0 on a token iff the token is that long form. -/
theorem long_name_selection_amended {V : Type} (ds : List (Descriptor V)) (m : Nat)
    (hm : m < ds.length)
    (hNul : ∀ d ∈ ds, ∀ c ∈ d.name, c.toNat ≠ 0)
    (hDash : ∀ d ∈ ds, ∀ c ∈ d.name, c ≠ '-')
    (hUniq : (ds.map (fun d => d.name)).Nodup)
    (hShort : ∀ d ∈ ds, d.short ≠ some (longForm (ds.get ⟨m, hm⟩).name)) :
    findMatch (longForm (ds.get ⟨m, hm⟩).name) ds = some m ∧
    (∀ t : Str, (∀ c ∈ t, c.toNat ≠ 0) →
      (arguments_cmp t (ds.get ⟨m, hm⟩).name = 0 ↔ t = longForm (ds.get ⟨m, hm⟩).name)) := by
  have hmemm : ds.get ⟨m, hm⟩ ∈ ds := List.get_mem ds m hm
  have hcmp : ∀ t : Str, (∀ c ∈ t, c.toNat ≠ 0) →
      (arguments_cmp t (ds.get ⟨m, hm⟩).name = 0 ↔ t = longForm (ds.get ⟨m, hm⟩).name) :=
    fun t ht => arguments_cmp_eq_zero_iff t _ ht (hNul _ hmemm)
  refine ⟨?_, hcmp⟩
  have htokNul : ∀ c ∈ longForm (ds.get ⟨m, hm⟩).name, c.toNat ≠ 0 :=
    longForm_noNul _ (hNul _ hmemm)
  apply findMatch_eq_some_of (longForm (ds.get ⟨m, hm⟩).name) ds m hm
  · intro e he
    have hmeme : ds.get ⟨e, Nat.lt_trans he hm⟩ ∈ ds := List.get_mem ds e _
    have hlong : ¬ arguments_cmp (longForm (ds.get ⟨m, hm⟩).name)
        (ds.get ⟨e, Nat.lt_trans he hm⟩).name = 0 := by
      intro h0
      have heq := (arguments_cmp_eq_zero_iff _ _ htokNul (hNul _ hmeme)).1 h0
      have hmap : ((ds.get ⟨m, hm⟩).name).map cNorm
          = ((ds.get ⟨e, Nat.lt_trans he hm⟩).name).map cNorm := by
        simpa [longForm] using heq
      have hne : (ds.get ⟨m, hm⟩).name = (ds.get ⟨e, Nat.lt_trans he hm⟩).name :=
        cNorm_map_inj _ _ (hDash _ hmemm) (hDash _ hmeme) hmap
      have hinj := List.nodup_iff_injective_get.1 hUniq
      have hel : e < (ds.map (fun d => d.name)).length := by
        simpa using Nat.lt_trans he hm
      have hml : m < (ds.map (fun d => d.name)).length := by simpa using hm
      have hfe : (⟨e, hel⟩ : Fin _) = ⟨m, hml⟩ := by
        apply hinj
        rw [List.get_map, List.get_map]
        exact hne.symm
      have : e = m := by simpa using congrArg Fin.val hfe
      omega
    unfold matchesTok
    rw [decide_eq_false hlong]
    rcases hse : (ds.get ⟨e, Nat.lt_trans he hm⟩).short with _ | s
    · rfl
    · rw [Bool.false_or]
      refine decide_eq_false ?_
      intro heq2
      exact hShort _ hmeme (by rw [hse, heq2])
  · have hz : arguments_cmp (longForm (ds.get ⟨m, hm⟩).name) (ds.get ⟨m, hm⟩).name = 0 :=
      (hcmp _ htokNul).2 rfl
    unfold matchesTok
    rw [decide_eq_true hz, Bool.true_or]

/-- Witness for the amended C2: schema `[a_b, c (short "-c")]`; the token
`--a-b` selects descriptor 0. -/
theorem long_name_selection_amended_witness :
    findMatch (longForm dAB.name) wds2 = some 0 :=
  (long_name_selection_amended wds2 0 (by decide) (by decide) (by decide)
    (by decide) (by decide)).1

/-- Claim C3: over every pipeline outcome, the positions released at process
exit are exactly the records whose `initialized` flag is set, each exactly
once, and the release pass visits them in declaration order (the list of
released positions is strictly increasing). -/
theorem release_exactly_once {V : Type} (ds : List (Descriptor V)) (argv : List Str)
    (setupCode runCode : Int) :
    List.Pairwise (fun a b => a < b) (mainRun ds argv setupCode runCode).released ∧
    ∀ i : Nat, ((mainRun ds argv setupCode runCode).released).count i =
      if i < (mainRun ds argv setupCode runCode).recs.length ∧
          (getRec (mainRun ds argv setupCode runCode).recs i).initialized = true
        then 1 else 0 := by
  have hinit : ∀ i, (getRec ((readPhase ds argv).recs) i).initialized = false :=
    readPhase_initialized ds argv
  rcases hst : (readPhase ds argv).status with _ | _ | _
  · rcases hfm : firstMissing ds (readPhase ds argv).recs with _ | k
    · by_cases hsu : setupCode = 0
      · rw [mainRun_eq_setPhase ds argv setupCode runCode hst hfm hsu]
        by_cases hset : (setPhase ds argv).1 = true
        · rw [if_pos hset]
          exact ⟨releaseList_pairwise _, fun i => releaseList_count _ i⟩
        · rw [if_neg hset]
          exact ⟨releaseList_pairwise _, fun i => releaseList_count _ i⟩
      · rw [mainRun_eq_setupFailed ds argv setupCode runCode hst hfm hsu]
        exact ⟨List.Pairwise.nil, fun i => by simp [hinit i]⟩
    · rw [mainRun_eq_missing ds argv setupCode runCode hst ⟨k, hfm⟩]
      exact ⟨List.Pairwise.nil, fun i => by simp [hinit i]⟩
  · rw [mainRun_eq_error ds argv setupCode runCode hst]
    exact ⟨List.Pairwise.nil, fun i => by simp [hinit i]⟩
  · rw [mainRun_eq_help ds argv setupCode runCode hst]
    exact ⟨List.Pairwise.nil, fun i => by simp [hinit i]⟩

/-- Counterexample to C4 as stated: in the schema
`[a (reader always invalid), b (required)]` with `argv = ["p", "--a"]`, the
pipeline reports `MissingRequired` (`ARGUMENTS_PARAMETER_MISSING`), yet the
materializer (`arguments_set`) was never called — the required-check pass of
`main` runs before materialization, not after all descriptors have been
processed by it, and even though descriptor 0's reader would have failed
first under the claimed order. -/
theorem missing_required_before_set_cex :
    (mainRun cexDs4 cexArgv4 0 0).outcome = Outcome.missingRequired ∧
    (mainRun cexDs4 cexArgv4 0 0).setCalled = false ∧
    matValue cexDs4 (readPhase cexDs4 cexArgv4).recs 0 = none := by
  have hread : readPhase (V := Unit) cexDs4 cexArgv4 =
      ⟨AC.ok, 2, [⟨true, false, some [], 0, none⟩, zeroRec]⟩ := by
    unfold readPhase arguments_read
    rw [if_neg (by decide)]
    rw [read_loop_match_cont cexDs4 cexArgv4 1 (initRecs cexDs4) 0 (by decide)
      (by decide) (by decide) (by decide)]
    rw [read_loop_stop _ _ _ _ (by decide)]
    decide
  have hmiss : firstMissing cexDs4 (readPhase cexDs4 cexArgv4).recs = some 1 := by
    rw [hread]
    decide
  rw [mainRun_eq_missing cexDs4 cexArgv4 0 0 (by rw [hread]) ⟨1, hmiss⟩]
  refine ⟨rfl, rfl, ?_⟩
  rw [hread]
  decide

/-- Claim C4 (amended): given that matching succeeded, the pipeline reports
`MissingRequired` (exit code `ARGUMENTS_PARAMETER_MISSING = 120`) iff some
descriptor's required predicate evaluates true under the final presence
flags while its `present` flag is false; but the required-check pass runs
after matching and *before* the materializer — whenever `MissingRequired` is
reported, `arguments_set` has not been called (so the failure is reported
even when any descriptor's materialization would have failed or
succeeded). -/
theorem missing_required_iff_amended {V : Type} (ds : List (Descriptor V))
    (argv : List Str) (setupCode runCode : Int)
    (hok : (readPhase ds argv).status = AC.ok) :
    ((mainRun ds argv setupCode runCode).outcome = Outcome.missingRequired ↔
      ∃ i, i < ds.length ∧ missAt ds (readPhase ds argv).recs i = true) ∧
    ((mainRun ds argv setupCode runCode).outcome = Outcome.missingRequired →
      (mainRun ds argv setupCode runCode).setCalled = false) := by
  rcases hfm : firstMissing ds (readPhase ds argv).recs with _ | k
  · have hnone : ¬ ∃ i, i < ds.length ∧ missAt ds (readPhase ds argv).recs i = true := by
      intro hex
      rcases (firstMissing_isSome_iff ds (readPhase ds argv).recs).2 hex with ⟨k2, hk2⟩
      rw [hfm] at hk2
      cases hk2
    have hne : (mainRun ds argv setupCode runCode).outcome ≠ Outcome.missingRequired := by
      by_cases hsu : setupCode = 0
      · rw [mainRun_eq_setPhase ds argv setupCode runCode hok hfm hsu]
        by_cases hset : (setPhase ds argv).1 = true
        · rw [if_pos hset]
          exact fun h => Outcome.noConfusion h
        · rw [if_neg hset]
          exact fun h => Outcome.noConfusion h
      · rw [mainRun_eq_setupFailed ds argv setupCode runCode hok hfm hsu]
        exact fun h => Outcome.noConfusion h
    exact ⟨⟨fun h => absurd h hne, fun hex => absurd hex hnone⟩, fun h => absurd h hne⟩
  · rw [mainRun_eq_missing ds argv setupCode runCode hok ⟨k, hfm⟩]
    exact ⟨⟨fun _ => (firstMissing_isSome_iff ds _).1 ⟨k, hfm⟩, fun _ => rfl⟩,
      fun _ => rfl⟩

/-- Witness for the amended C4: schema `[r (required)]`, `argv = ["p"]`;
the pipeline reports `MissingRequired`. -/
theorem missing_required_iff_amended_witness :
    (mainRun wds4 wargv4 0 0).outcome = Outcome.missingRequired := by
  have hread : readPhase (V := Unit) wds4 wargv4 = ⟨AC.ok, 1, initRecs wds4⟩ := by
    unfold readPhase arguments_read
    rw [if_neg (by decide)]
    exact read_loop_stop _ _ _ _ (by decide)
  have h := missing_required_iff_amended wds4 wargv4 0 0 (by rw [hread])
  refine h.1.mpr ⟨0, by decide, ?_⟩
  rw [hread]
  decide

/-- Claim C5: if descriptor `i` is the first to be processed whose reader
reports an invalid value (all earlier descriptors materialize successfully
and `i` is present with a failing reader), then `arguments_set` returns the
error status, every record from position `i` on is left unchanged (later
descriptors are not processed: neither their readers nor their default
providers run), no `read`/`set_default` block of a later descriptor is ever
executed, and every earlier descriptor keeps `initialized = true`. -/
theorem set_first_failure_stops {V : Type} (ds : List (Descriptor V))
    (recs : List (Rec V)) (i : Nat) (hi : i < ds.length)
    (hlen : ds.length ≤ recs.length)
    (hpres : (getRec recs i).present = true)
    (hfail : matValue ds recs i = none)
    (hearlier : ∀ e, e < i → (matValue ds recs e).isSome = true) :
    (arguments_set ds recs).1 = false ∧
    (∀ l, i ≤ l → getRec (arguments_set ds recs).2.1 l = getRec recs l) ∧
    (∀ l, i < l → SetEvent.reader l ∉ (arguments_set ds recs).2.2 ∧
      SetEvent.defaulter l ∉ (arguments_set ds recs).2.2) ∧
    (∀ e, e < i → (getRec (arguments_set ds recs).2.1 e).initialized = true) := by
  unfold arguments_set
  have hfail2 : stepVal (ds.get ⟨i, hi⟩) (getRec recs (0 + i)) = none := by
    rw [Nat.zero_add, ← matValue_eq ds recs i hi]
    exact hfail
  have hok2 : ∀ e (he : e < i),
      (stepVal (ds.get ⟨e, Nat.lt_trans he hi⟩) (getRec recs (0 + e))).isSome = true := by
    intro e he
    rw [Nat.zero_add, ← matValue_eq ds recs e (Nat.lt_trans he hi)]
    exact hearlier e he
  obtain ⟨c1, c2, c3, c4, c5⟩ := set_go_fail ds 0 recs [] i hi hok2 hfail2 (by omega)
  refine ⟨c1, ?_, ?_, ?_⟩
  · intro l hl
    exact c2 l (by omega)
  · intro l hl
    constructor
    · intro hmem
      rcases c5 _ hmem with h5 | h5
      · simp at h5
      · simp only [evIdx] at h5
        omega
    · intro hmem
      rcases c5 _ hmem with h5 | h5
      · simp at h5
      · simp only [evIdx] at h5
        omega
  · intro e he
    have hc := c4 e he
    rw [Nat.zero_add] at hc
    exact hc

/-- Witness for C5: schema `[a (defaulted), b (present, reader invalid),
c]`; the run fails, record 2 is untouched, its reader never runs, and
record 0 is initialized. -/
theorem set_first_failure_stops_witness :
    (arguments_set ds5 recs5).1 = false ∧
    getRec (arguments_set ds5 recs5).2.1 2 = getRec recs5 2 ∧
    SetEvent.reader 2 ∉ (arguments_set ds5 recs5).2.2 ∧
    (getRec (arguments_set ds5 recs5).2.1 0).initialized = true := by
  have h := set_first_failure_stops ds5 recs5 1 (by decide) (by decide) (by decide)
    (by decide) (by decide)
  exact ⟨h.1, h.2.1 2 (by decide), (h.2.2.1 2 (by decide)).1, h.2.2.2 0 (by decide)⟩

/-- Claim C6: when the scan reaches a `--help` or `-h` token (not consumed
as another flag's value), `arguments_read` stops right there with `AC_HELP`,
leaving the records and `*nextarg` untouched — no later token is matched,
consumed or validated; and in the pipeline a help outcome exits with code 0
without ever calling the materializer. -/
theorem help_short_circuit {V : Type} (ds : List (Descriptor V)) (argv : List Str)
    (recs : List (Rec V)) (j : Nat) (hj : j < argv.length)
    (hh : argv.get ⟨j, hj⟩ = helpLong ∨ argv.get ⟨j, hj⟩ = helpShort) :
    arguments_read_loop ds argv j recs = ⟨AC.help, j, recs⟩ ∧
    (∀ setupCode runCode : Int, (readPhase ds argv).status = AC.help →
      (mainRun ds argv setupCode runCode).outcome = Outcome.helpRequested ∧
      (mainRun ds argv setupCode runCode).exitCode = 0 ∧
      (mainRun ds argv setupCode runCode).setCalled = false ∧
      (mainRun ds argv setupCode runCode).released = []) := by
  constructor
  · exact read_loop_help ds argv j recs hj hh
  · intro su ru hst
    rw [mainRun_eq_help ds argv su ru hst]
    exact ⟨rfl, rfl, rfl, rfl⟩

/-- Witness for C6: `argv = ["p", "-h", "--cnt"]`; the scan stops at index 1
with `AC_HELP` and untouched records. -/
theorem help_short_circuit_witness :
    arguments_read_loop wds1 wargv6 1 (initRecs wds1) = ⟨AC.help, 1, initRecs wds1⟩ :=
  (help_short_circuit wds1 wargv6 (initRecs wds1) 1 (by decide) (by decide)).1

/-- Claim C7: an absent descriptor whose default provider yields a value is
marked `initialized = true` when the materializer reaches it (all earlier
descriptors having materialized), and its reader block never executes
(regardless of required-ness, which `arguments_set` never consults). -/
theorem default_materialization_initializes {V : Type} (ds : List (Descriptor V))
    (recs : List (Rec V)) (i : Nat) (hi : i < ds.length)
    (hlen : ds.length ≤ recs.length)
    (habs : (getRec recs i).present = false)
    (hdef : ((ds.get ⟨i, hi⟩).set_default).isSome = true)
    (hearlier : ∀ e, e < i → (matValue ds recs e).isSome = true) :
    (getRec (arguments_set ds recs).2.1 i).initialized = true ∧
    SetEvent.reader i ∉ (arguments_set ds recs).2.2 := by
  unfold arguments_set
  constructor
  · have hok : ∀ e (he : e ≤ i),
        (stepVal (ds.get ⟨e, Nat.lt_of_le_of_lt he hi⟩) (getRec recs (0 + e))).isSome = true := by
      intro e he
      rcases Nat.lt_or_eq_of_le he with h | h
      · rw [Nat.zero_add, ← matValue_eq ds recs e (Nat.lt_trans h hi)]
        exact hearlier e h
      · subst h
        rw [Nat.zero_add]
        unfold stepVal
        rw [habs]
        simpa using hdef
    have hgo := set_go_init ds 0 recs [] i hi hok (by omega)
    rw [Nat.zero_add] at hgo
    exact hgo
  · intro hmem
    rcases set_go_events ds 0 (true, recs, []) _ hmem with h5 | ⟨l, _, hev⟩
    · simp at h5
    · unfold stepEvent at hev
      by_cases hp : (getRec recs l).present = true
      · rw [if_pos hp] at hev
        have hil : i = l := by injection hev
        rw [← hil] at hp
        rw [habs] at hp
        cases hp
      · rw [if_neg hp] at hev
        cases hev

/-- Witness for C7: schema `[a]` (absent, defaulted); record 0 is
initialized and its reader never ran. -/
theorem default_materialization_initializes_witness :
    (getRec (arguments_set ds7 recs7).2.1 0).initialized = true ∧
    SetEvent.reader 0 ∉ (arguments_set ds7 recs7).2.2 :=
  default_materialization_initializes ds7 recs7 0 (by decide) (by decide) (by decide)
    (by decide) (by decide)

/-- Counterexample to C8 as stated: the ten-character space-free word
`ghijklmnop` wrapped at `maxColumns = 7` would, per the claim, split into
`ceil(10/7) = 2` fragments with the first of length exactly 7
(`["ghijklm", "nop"]`); the code instead breaks at 6 columns, producing
`["ghijkl", "mnop"]`. -/
theorem hard_break_width_cex :
    wrapLines 10 gw 7 ≠ [gw.take 7, gw.drop 7] ∧
    wrapLines 10 gw 7 = [gw.take 6, gw.drop 6] :=
  ⟨by decide, by decide⟩

/-- Claim C8 (amended): for a space-free, newline-free word and
`maxColumns ≥ 1`, each application of `arguments_get_line` to a remaining
word longer than `maxColumns` hard-breaks at exactly `maxColumns - 1`
columns (not `maxColumns`), with the next offset continuing immediately
where the text was cut (no byte skipped); once the remainder fits
(`length ≤ maxColumns`) it is emitted whole.  Hence an overlong word is
split into fragments of length `maxColumns - 1` followed by a final
fragment of length at most `maxColumns`. -/
theorem hard_break_width_amended (w : List Char) (maxl : Nat)
    (hw : ∀ c ∈ w, isspaceC c = false ∧ c ≠ '\n') (h1 : 1 ≤ maxl) :
    (maxl < w.length → arguments_get_line w maxl = (maxl - 1, maxl - 1)) ∧
    (w.length ≤ maxl → arguments_get_line w maxl = (w.length, w.length)) := by
  constructor
  · intro hlen
    have hgo := get_line_go_word w maxl hw w.length 0 0 0 (by omega) (by omega) (by omega)
    unfold arguments_get_line
    rw [hgo, if_neg (by omega : ¬ w.length ≤ maxl)]
    simp only []
    rw [if_neg (Nat.lt_irrefl (maxl - 1))]
    rw [skipTrailing_id w (maxl - 1) ?_]
    intro hr
    exact isspaceC_ne_space (hw _ (getChar_mem w (maxl - 1) hr)).1
  · intro hlen
    rcases Nat.eq_zero_or_pos w.length with hz | hpos
    · have hwnil : w = [] := List.length_eq_zero.1 hz
      subst hwnil
      rfl
    · have hgo := get_line_go_word w maxl hw w.length 0 0 0 (by omega) (by omega) (by omega)
      unfold arguments_get_line
      rw [hgo, if_pos hlen]
      simp only []
      rw [if_neg (Nat.lt_irrefl w.length)]
      rw [skipTrailing_id w w.length (fun hr => absurd hr (Nat.lt_irrefl _))]

/-- Witness for the amended C8: the word `ghijklmnop` at `maxColumns = 7`
breaks at 6 columns, continuing at byte 6. -/
theorem hard_break_width_amended_witness :
    arguments_get_line gw 7 = (6, 6) :=
  (hard_break_width_amended gw 7 (by decide) (by decide)).1 (by decide)

/-- Counterexample to C9 as stated: wrapping `"abc def ghijklmnop"` at
`maxColumns = 7` does not produce the claimed lines
`["abc def", "ghijklm", "nop"]` — the code produces four lines. -/
theorem wrap_scenario_cex :
    wrapLines 18 t9 7 ≠
      [['a', 'b', 'c', ' ', 'd', 'e', 'f'], ['g', 'h', 'i', 'j', 'k', 'l', 'm'],
        ['n', 'o', 'p']] ∧
    (wrapLines 18 t9 7).length = 4 :=
  ⟨by decide, by decide⟩

/-- Claim C9 (amended): iterating `arguments_get_line` over
`"abc def ghijklmnop"` with `maxColumns = 7` produces exactly the lines
`"abc"`, `"def"`, `"ghijkl"`, `"mnop"`: the first line carries only the
first word (the second word's trailing boundary lies beyond the 7-column
window), and the overlong word is hard-split at 6 columns. -/
theorem wrap_scenario_amended :
    wrapLines 18 t9 7 =
      [['a', 'b', 'c'], ['d', 'e', 'f'], ['g', 'h', 'i', 'j', 'k', 'l'],
        ['m', 'n', 'o', 'p']] := by
  decide

/-- Claim C10 (implicit): when `arguments_read` fails because a matched
descriptor's arity cannot be satisfied, the matched record is not left
unchanged: its `present` flag is already 1 and `value_strings_length` is the
arity, while `value_strings` stays NULL (no tokens captured) and `*nextarg`
still points at the flag token itself. -/
theorem error_state_on_insufficient {V : Type} (ds : List (Descriptor V))
    (argv : List Str) (recs : List (Rec V)) (j m : Nat)
    (hj : j < argv.length)
    (hnh : ¬(argv.get ⟨j, hj⟩ = helpLong ∨ argv.get ⟨j, hj⟩ = helpShort))
    (hfm : findMatch (argv.get ⟨j, hj⟩) ds = some m)
    (hge : ¬ j + arityAt ds m < argv.length)
    (hm : m < recs.length)
    (hnull : (getRec recs m).value_strings = none) :
    (arguments_read_loop ds argv j recs).status = AC.error ∧
    (arguments_read_loop ds argv j recs).nextarg = j ∧
    (getRec (arguments_read_loop ds argv j recs).recs m).present = true ∧
    (getRec (arguments_read_loop ds argv j recs).recs m).value_strings_length = arityAt ds m ∧
    (getRec (arguments_read_loop ds argv j recs).recs m).value_strings = none := by
  rw [read_loop_match_err ds argv j recs m hj hnh hfm hge]
  refine ⟨rfl, rfl, ?_, ?_, ?_⟩
  · show (getRec (modifyIdx (fun r => { r with present := true, value_strings_length := arityAt ds m }) m recs) m).present = true
    rw [getRec_modifyIdx_self _ _ _ hm]
  · show (getRec (modifyIdx (fun r => { r with present := true, value_strings_length := arityAt ds m }) m recs) m).value_strings_length = arityAt ds m
    rw [getRec_modifyIdx_self _ _ _ hm]
  · show (getRec (modifyIdx (fun r => { r with present := true, value_strings_length := arityAt ds m }) m recs) m).value_strings = none
    rw [getRec_modifyIdx_self _ _ _ hm]
    exact hnull

/-- Witness for C10 at the schema `[cnt]` and `argv = ["p", "--cnt"]`. -/
theorem error_state_on_insufficient_witness :
    (arguments_read_loop wds1 wargv1 1 (initRecs wds1)).status = AC.error ∧
    (arguments_read_loop wds1 wargv1 1 (initRecs wds1)).nextarg = 1 ∧
    (getRec (arguments_read_loop wds1 wargv1 1 (initRecs wds1)).recs 0).present = true ∧
    (getRec (arguments_read_loop wds1 wargv1 1 (initRecs wds1)).recs 0).value_strings_length = arityAt wds1 0 ∧
    (getRec (arguments_read_loop wds1 wargv1 1 (initRecs wds1)).recs 0).value_strings = none :=
  error_state_on_insufficient wds1 wargv1 (initRecs wds1) 1 0 (by decide) (by decide)
    (by decide) (by decide) (by decide) (by decide)

end Arguments
